import Mathlib

/-!
Shallow embedding of the forward-model core of this repository
(src/VolumeRaytraceLFM/birefringence_implementations.py) together with the
parts of the Jones-calculus helper module that the repository imports from
jones_torch but whose source is not part of this snapshot; those helpers are
modelled from the specification and marked as such in their doc comments.

Conventions of the embedding:
- A torch complex 2x2 tensor becomes the structure JonesMatrix with four
  complex entries (row major: a b / c d).
- The 4-channel volume tensor voxel_parameters[ch, z, y, x] becomes a total
  function VolParams over integer coordinates; python fancy indexing is
  abstracted as a total lookup, which is fine for the claims treated here.
- The batched per-step masking of calc_cummulative_JM_of_ray collapses, per
  ray, to: identity when the voxel has Delta_n = 0, otherwise the per-voxel
  transform; rays whose segment list is exhausted receive no further factor.
- Real tensor values become real numbers; the one place where IEEE floats
  matter (NaN from a zero-norm division in the volume generators) is modelled
  by exposing the divisor actually used by each normalization site.
-/

namespace ForwardModel

/-- A 2x2 complex Jones matrix with entries (row major) a b / c d. -/
@[ext] structure JonesMatrix where
  a : ℂ
  b : ℂ
  c : ℂ
  d : ℂ

/-- The identity Jones matrix, torch.tensor([[1,0],[0,1]]) at
birefringence_implementations.py line 106. -/
def JonesMatrix.one : JonesMatrix := ⟨1, 0, 0, 1⟩

/-- Matrix product of two Jones matrices. -/
def JonesMatrix.mul (A B : JonesMatrix) : JonesMatrix :=
  ⟨A.a * B.a + A.b * B.c, A.a * B.b + A.b * B.d,
   A.c * B.a + A.d * B.c, A.c * B.b + A.d * B.d⟩

/-- Scalar multiple of a Jones matrix by a complex number. -/
def JonesMatrix.smul (z : ℂ) (A : JonesMatrix) : JonesMatrix :=
  ⟨z * A.a, z * A.b, z * A.c, z * A.d⟩

/-- 3-vectors of reals, used for optic axes and ray-direction bases. -/
abbrev Vec3 : Type := ℝ × ℝ × ℝ

/-- Euclidean dot product on Vec3. -/
def dot (u v : Vec3) : ℝ := u.1 * v.1 + u.2.1 * v.2.1 + u.2.2 * v.2.2

/-- The local orthonormal basis of a ray: e1 is the propagation direction,
e2 and e3 span the transverse plane. Produced by the external ray-geometry
provider (calc_rayDir); the core only reads it. -/
structure RayBasis where
  e1 : Vec3
  e2 : Vec3
  e3 : Vec3

/-- Modelled from the spec: voxRayJM, imported by the repository from
jones_torch, is absent from this snapshot. Following section 4.1 of the spec,
it projects the optic axis onto the ray's transverse plane (components u1, u2
along e2, e3), derives a phase retardation proportional to Delta_n times the
path length (scaled by the squared transverse projection and the wavelength
constant supplied externally), and returns the corresponding unitary-up-to-
global-phase 2x2 matrix of a linear retarder whose fast-axis doubled angle
has cosine q and sine p. -/
noncomputable def voxRayJM (wavelength Delta_n : ℝ) (opticAxis : Vec3)
    (rayDir : RayBasis) (ell : ℝ) : JonesMatrix :=
  let u1 : ℝ := dot opticAxis rayDir.e2
  let u2 : ℝ := dot opticAxis rayDir.e3
  let s : ℝ := u1 ^ 2 + u2 ^ 2
  let ret : ℝ := 2 * Real.pi * Delta_n * ell * s / wavelength
  let q : ℝ := (u1 ^ 2 - u2 ^ 2) / s
  let p : ℝ := 2 * u1 * u2 / s
  ⟨(Real.cos (ret / 2) : ℝ) + Complex.I * ((Real.sin (ret / 2) * q : ℝ) : ℂ),
   Complex.I * ((Real.sin (ret / 2) * p : ℝ) : ℂ),
   Complex.I * ((Real.sin (ret / 2) * p : ℝ) : ℂ),
   (Real.cos (ret / 2) : ℝ) - Complex.I * ((Real.sin (ret / 2) * q : ℝ) : ℂ)⟩

/-- Voxel coordinates (z, y, x), integers so that the micro-lens offset can
be applied without bound bookkeeping. -/
abbrev Vox : Type := ℤ × ℤ × ℤ

/-- The 4-channel volume voxel_parameters: channel, z, y, x. Channel 0 is the
birefringence magnitude, channels 1-3 the optic-axis components. -/
abbrev VolParams : Type := ℕ → ℤ → ℤ → ℤ → ℝ

/-- The index arithmetic of birefringence_implementations.py line 103: the
micro-lens offset is added to the second and third spatial coordinates only. -/
def shiftVox (off : ℤ × ℤ) (v : Vox) : Vox :=
  (v.1, v.2.1 + off.1, v.2.2 + off.2)

/-- One step of calc_cummulative_JM_of_ray (lines 92-131), for a single ray
and a single collision segment (voxel, ell), parameterized by the per-voxel
transform f it would call in the general case. The torch code initializes an
identity matrix for the step, and overwrites it through f only at rays whose
voxel has Delta_n different from 0 (mask valid_voxel at line 119, guarded by
the all-zero short circuit at line 108); a segment with Delta_n = 0 therefore
contributes the identity and never reaches f. -/
noncomputable def stepJMWith (f : ℝ → Vec3 → RayBasis → ℝ → JonesMatrix)
    (vp : VolParams) (off : ℤ × ℤ) (dir : RayBasis) (seg : Vox × ℝ) :
    JonesMatrix :=
  let v := shiftVox off seg.1
  let dn := vp 0 v.1 v.2.1 v.2.2
  if dn = 0 then JonesMatrix.one
  else f dn (vp 1 v.1 v.2.1 v.2.2, vp 2 v.1 v.2.1 v.2.2, vp 3 v.1 v.2.1 v.2.2)
    dir seg.2

/-- calc_cummulative_JM_of_ray (lines 75-136) restricted to a single ray: the
ragged batched loop over steps m, with its mask of rays that still have an
m-th voxel, acts on each ray exactly as a fold over that ray's own segment
list. The per-step matrices are combined by rayJM (imported from jones_torch,
absent from this snapshot); modelled from the spec, section 4.2: the running
product starts at the identity and each new step multiplies onto it in
physical entry-to-exit order (the later voxel on the left). -/
noncomputable def calc_cummulative_JM_of_ray (wavelength : ℝ) (vp : VolParams)
    (off : ℤ × ℤ) (dir : RayBasis) (segs : List (Vox × ℝ)) : JonesMatrix :=
  segs.foldl
    (fun acc seg => (stepJMWith (voxRayJM wavelength) vp off dir seg).mul acc)
    JonesMatrix.one

/-- Modelled from the spec: calc_retardance, imported by the repository from
jones_torch, is absent from this snapshot. Section 4.4: the retardance is the
relative phase between the eigen-components of the effective matrix. For a
matrix that is unitary up to a global phase the eigenvalues are
exp(i(theta plus or minus delta/2)), so the trace has modulus 2 cos(delta/2)
and the relative phase delta is recovered from it. -/
noncomputable def calc_retardance (J : JonesMatrix) : ℝ :=
  2 * Real.arccos (Complex.abs (J.a + J.d) / 2)

/-- Modelled from the spec: calc_azimuth, imported by the repository from
jones_torch, is absent from this snapshot. Section 4.4: the azimuth is the
orientation angle of the fast axis embedded in the matrix, an axis angle in
the range zero (inclusive) to pi (exclusive). The doubled angle is read off
from the off-diagonal sum and the diagonal difference; each is multiplied by
the conjugate of the trace so that the global phase cancels. -/
noncomputable def calc_azimuth (J : JonesMatrix) : ℝ :=
  let t : ℂ := J.a + J.d
  let x : ℝ := ((J.a - J.d) * (starRingEnd ℂ) t).im
  let y : ℝ := ((J.b + J.c) * (starRingEnd ℂ) t).im
  let th : ℝ := Complex.arg ((x : ℂ) + (y : ℂ) * Complex.I) / 2
  if th < 0 then th + Real.pi else th

/-- One precomputed ray of the system: its pixel coordinate inside the
micro-lens tile (ray_valid_indexes), its direction basis
(ray_valid_direction after calc_rayDir), and its ordered collision segments
(ray_vol_colli_indexes zipped with ray_vol_colli_lengths). -/
structure RayData where
  pix : ℕ × ℕ
  dir : RayBasis
  segs : List (Vox × ℝ)

/-- The configuration and precomputed ray state read by
BirefringentRaytraceLFM: micro-lens counts and sizes from
optic_config.mla_config, the volume center index vox_ctr_idx (components 1
and 2, the ones used at line 144), the voxel span per micro-lens, the
wavelength constant of the per-voxel transform, and the precomputed rays. -/
structure RTConfig where
  n_micro_lenses : ℕ
  n_voxels_per_ml : ℤ
  voxel_span_per_ml : ℚ
  pixels_per_ml : ℕ
  wavelength : ℝ
  vox_ctr_idx : ℤ × ℤ
  rays : List RayData

/-- The pixel-assignment loop of ret_and_azim_images (lines 159-161): start
from torch.zeros and write each ray's value at its (i, j) coordinate, later
writes overwriting earlier ones. -/
def writePixels (vals : List ((ℕ × ℕ) × ℝ)) : ℕ → ℕ → ℝ :=
  vals.foldl
    (fun g iv => fun i j => if i = iv.1.1 ∧ j = iv.1.2 then iv.2 else g i j)
    (fun _ _ => 0)

/-- ret_and_azim_images (lines 138-162): shift the requested micro-lens
offset by the volume center minus n_ml_half, compute every ray's effective
Jones matrix, extract retardance and azimuth, and write them into two
zero-initialized pixels_per_ml by pixels_per_ml images at each ray's valid
index. Images are row lists of column lists. -/
noncomputable def ret_and_azim_images (cfg : RTConfig) (vp : VolParams)
    (micro_lens_offset : ℤ × ℤ) : List (List ℝ) × List (List ℝ) :=
  let n_ml_half : ℤ := (cfg.n_micro_lenses : ℤ) / 2
  let off : ℤ × ℤ := (micro_lens_offset.1 + cfg.vox_ctr_idx.1 - n_ml_half,
                      micro_lens_offset.2 + cfg.vox_ctr_idx.2 - n_ml_half)
  let effs : List JonesMatrix := cfg.rays.map
    (fun r => calc_cummulative_JM_of_ray cfg.wavelength vp off r.dir r.segs)
  let retP := writePixels
    (List.zip (cfg.rays.map RayData.pix) (effs.map calc_retardance))
  let azimP := writePixels
    (List.zip (cfg.rays.map RayData.pix) (effs.map calc_azimuth))
  ((List.range cfg.pixels_per_ml).map
      (fun i => (List.range cfg.pixels_per_ml).map (fun j => retP i j)),
   (List.range cfg.pixels_per_ml).map
      (fun i => (List.range cfg.pixels_per_ml).map (fun j => azimP i j)))

/-- torch.cat along dimension 0 with the None-initialized accumulation of
lines 61-66: the first image starts the block, later ones are appended below. -/
def catRows : List (List (List ℝ)) → List (List ℝ)
  | [] => []
  | x :: xs => xs.foldl (fun acc y => acc ++ y) x

/-- torch.cat along dimension 1 with the None-initialized accumulation of
lines 67-72: rows of equal index are concatenated side by side. -/
def catCols : List (List (List ℝ)) → List (List ℝ)
  | [] => []
  | x :: xs => xs.foldl (fun acc y => List.zipWith (fun r s => r ++ s) acc y) x

/-- The centered micro-lens index range of lines 52 and 56:
range(-n_ml_half, n_ml_half + 1) where n_ml_half = floor(n / 2). -/
def centeredRange (h : ℕ) : List ℤ :=
  (List.range (2 * h + 1)).map (fun k : ℕ => (k : ℤ) - (h : ℤ))

/-- ray_trace_through_volume (lines 28-73). volume_shape is
voxel_parameters.shape[2:], that is the pair (Dy, Dx) of the two transverse
extents of the [4, Dz, Dy, Dx] tensor. The assert at line 43 compares the
total micro-lens voxel span against volume_shape[0] only, before any tile is
computed; on failure nothing else runs (the python assert raises). On success
every micro-lens pair (ml_ii, ml_jj) in the centered range produces one tile
with offset n_voxels_per_ml times the pair, tiles of one row are stacked
along dimension 0 and rows are glued along dimension 1. -/
noncomputable def ray_trace_through_volume (cfg : RTConfig)
    (volume_shape : ℕ × ℕ) (vp : VolParams) :
    Except String (List (List ℝ) × List (List ℝ)) :=
  let n_ml_half : ℕ := cfg.n_micro_lenses / 2
  if cfg.voxel_span_per_ml * (cfg.n_micro_lenses : ℚ) < (volume_shape.1 : ℚ)
  then
    Except.ok
      (catCols ((centeredRange n_ml_half).map (fun ml_ii =>
         catRows ((centeredRange n_ml_half).map (fun ml_jj =>
           (ret_and_azim_images cfg vp
             (cfg.n_voxels_per_ml * ml_ii, cfg.n_voxels_per_ml * ml_jj)).1)))),
       catCols ((centeredRange n_ml_half).map (fun ml_ii =>
         catRows ((centeredRange n_ml_half).map (fun ml_jj =>
           (ret_and_azim_images cfg vp
             (cfg.n_voxels_per_ml * ml_ii, cfg.n_voxels_per_ml * ml_jj)).2)))))
  else Except.error "No full micro-lenses fit inside this volume."

/-- init_mode zeros of init_volume (line 172): a torch.zeros 4-channel grid.
Generator grids are indexed channel, k, j, i over the finite shape. -/
def generate_zeros_volume : ℕ → ℕ → ℕ → ℕ → ℝ := fun _ _ _ _ => 0

/-- generate_planes_volume (lines 198-218) in its n_planes = 1 branch: a zero
volume except one z-plane at z_size / 2 + 4, where channel 0 is set to 0.1
and channel 1 to 1 (channels 2 and 3 stay 0). -/
def generate_planes_volume1 (volume_shape : ℕ × ℕ × ℕ) :
    ℕ → ℕ → ℕ → ℕ → ℝ :=
  fun ch k _ _ =>
    if k = volume_shape.1 / 2 + 4 then
      if ch = 0 then 0.1 else if ch = 1 then 1 else 0
    else 0

/-- The divisor norm_A used by generate_random_volume (line 195) to normalize
the sampled axis: the raw euclidean norm of the sample, with no guard against
a zero-length sample. Sampling by uniform_ is modelled by passing the drawn
values as the functions a0, a1, a2. -/
noncomputable def random_axis_divisor (a0 a1 a2 : ℕ → ℕ → ℕ → ℝ)
    (k j i : ℕ) : ℝ :=
  Real.sqrt (a0 k j i ^ 2 + a1 k j i ^ 2 + a2 k j i ^ 2)

/-- generate_random_volume (lines 188-196): channel 0 is the Delta_n draw
from uniform(0, 0.01), channels 1-3 are the axis draws from uniform(-5, 5)
divided by their euclidean norm. The draws are passed in as functions; range
constraints appear as hypotheses where a theorem needs them. -/
noncomputable def generate_random_volume (dn a0 a1 a2 : ℕ → ℕ → ℕ → ℝ) :
    ℕ → ℕ → ℕ → ℕ → ℝ :=
  fun ch k j i =>
    if ch = 0 then dn k j i
    else if ch = 1 then a0 k j i / random_axis_divisor a0 a1 a2 k j i
    else if ch = 2 then a1 k j i / random_axis_divisor a0 a1 a2 k j i
    else if ch = 3 then a2 k j i / random_axis_divisor a0 a1 a2 k j i
    else 0

/-- The guard norm_factor[norm_factor == 0] = 1 of
generate_ellipsoid_volume (line 240). -/
noncomputable def replaceZeroNorm (x : ℝ) : ℝ := if x = 0 then 1 else x

/-- The centered z coordinate kk of generate_ellipsoid_volume (line 227):
floor(center * shape) minus the voxel index, as a real. -/
noncomputable def ellipsoid_cc (c : ℝ) (extent : ℕ) (k : ℕ) : ℝ :=
  ((⌊c * (extent : ℝ)⌋ : ℤ) : ℝ) - (k : ℕ)

/-- The squared length of the unnormalized surface normal of
generate_ellipsoid_volume (lines 235-238) at voxel (k, j, i). -/
noncomputable def ellipsoid_normal_sq (volume_shape : ℕ × ℕ × ℕ)
    (center radius : ℝ × ℝ × ℝ) (k j i : ℕ) : ℝ :=
  (2 * ellipsoid_cc center.1 volume_shape.1 k / radius.1) ^ 2 +
  (2 * ellipsoid_cc center.2.1 volume_shape.2.1 j / radius.2.1) ^ 2 +
  (2 * ellipsoid_cc center.2.2 volume_shape.2.2 i / radius.2.2) ^ 2

/-- The divisor used by generate_ellipsoid_volume to normalize the surface
normal (lines 238-240): the norm with its zero value replaced by 1. -/
noncomputable def ellipsoid_axis_divisor (volume_shape : ℕ × ℕ × ℕ)
    (center radius : ℝ × ℝ × ℝ) (k j i : ℕ) : ℝ :=
  replaceZeroNorm
    (Real.sqrt (ellipsoid_normal_sq volume_shape center radius k j i))

/-- The shell mask of generate_ellipsoid_volume (lines 231-233): 1 at voxels
whose ellipsoid level value lies within 1 of alpha, else 0. -/
noncomputable def ellipsoid_mask (volume_shape : ℕ × ℕ × ℕ)
    (center radius : ℝ × ℝ × ℝ) (alpha : ℝ) (k j i : ℕ) : ℝ :=
  if |ellipsoid_cc center.1 volume_shape.1 k ^ 2 / radius.1 ^ 2 +
      ellipsoid_cc center.2.1 volume_shape.2.1 j ^ 2 / radius.2.1 ^ 2 +
      ellipsoid_cc center.2.2 volume_shape.2.2 i ^ 2 / radius.2.2 ^ 2 -
      alpha| ≤ 1
  then 1 else 0

/-- generate_ellipsoid_volume (lines 220-247): channel 0 is the shell mask
times delta_n, channels 1-3 are the surface normal divided by the guarded
norm, times the mask. -/
noncomputable def generate_ellipsoid_volume (volume_shape : ℕ × ℕ × ℕ)
    (center radius : ℝ × ℝ × ℝ) (alpha delta_n : ℝ) :
    ℕ → ℕ → ℕ → ℕ → ℝ :=
  fun ch k j i =>
    let mask := ellipsoid_mask volume_shape center radius alpha k j i
    let nf := ellipsoid_axis_divisor volume_shape center radius k j i
    if ch = 0 then mask * delta_n
    else if ch = 1 then
      2 * ellipsoid_cc center.1 volume_shape.1 k / radius.1 / nf * mask
    else if ch = 2 then
      2 * ellipsoid_cc center.2.1 volume_shape.2.1 j / radius.2.1 / nf * mask
    else if ch = 3 then
      2 * ellipsoid_cc center.2.2 volume_shape.2.2 i / radius.2.2 / nf * mask
    else 0

/-- The Volume data-model invariant of spec section 3: wherever channel 0 is
nonzero, channels 1-3 form a unit vector up to the tolerance tol (stated on
the squared norm). -/
def axis_unit_invariant (vol : ℕ → ℕ → ℕ → ℕ → ℝ) (shape : ℕ × ℕ × ℕ)
    (tol : ℝ) : Prop :=
  ∀ k j i : ℕ, k < shape.1 → j < shape.2.1 → i < shape.2.2 →
    vol 0 k j i ≠ 0 →
    |vol 1 k j i ^ 2 + vol 2 k j i ^ 2 + vol 3 k j i ^ 2 - 1| ≤ tol

/-- Shape predicate for the row-list images: r rows, each of length c. -/
def imgShape (m : List (List ℝ)) (r c : ℕ) : Prop :=
  m.length = r ∧ ∀ row ∈ m, row.length = c

/-- The all-zero volume. -/
def vol0 : VolParams := fun _ _ _ _ => 0

/-- A concrete ray basis: propagation along the first coordinate, transverse
plane spanned by the second and third coordinate directions. -/
def bas0 : RayBasis := ⟨(1, 0, 0), (0, 1, 0), (0, 0, 1)⟩

/-- A concrete volume holding two voxels with unit birefringence: voxel
A = (0,0,0) with optic axis (0,1,0) and voxel B = (0,0,1) with optic axis
(0,1,1); the two axes are not parallel. -/
def vpAB : VolParams := fun ch z y x =>
  if z = 0 ∧ y = 0 ∧ x = 0 then
    if ch = 0 then 1 else if ch = 2 then 1 else 0
  else if z = 0 ∧ y = 0 ∧ x = 1 then
    if ch = 0 then 1 else if ch = 2 then 1 else if ch = 3 then 1 else 0
  else 0

/-- A configuration with two micro-lenses of span 2 and one pixel per
micro-lens and no precomputed rays, used to probe the tiler's fit check and
tile counting. -/
def cfgTwo : RTConfig :=
  ⟨2, 1, 2, 1, 1, (0, 0), []⟩

/-- A single-micro-lens configuration with zero voxel span, one pixel and no
rays. -/
def cfgOne : RTConfig :=
  ⟨1, 1, 0, 1, 1, (0, 0), []⟩

/-- A single-micro-lens configuration with a 2 by 2 tile and one ray at pixel
(0, 0) with no collision segments. -/
def cfgPix : RTConfig :=
  ⟨1, 1, 0, 2, 1, (0, 0), [⟨(0, 0), bas0, []⟩]⟩

/-- The everywhere-zero sample draw for the random volume generator. -/
def zeroSample : ℕ → ℕ → ℕ → ℝ := fun _ _ _ => 0

theorem JonesMatrix.one_mul (A : JonesMatrix) : JonesMatrix.one.mul A = A := by
  cases A
  simp [JonesMatrix.mul, JonesMatrix.one]

theorem JonesMatrix.mul_one (A : JonesMatrix) : A.mul JonesMatrix.one = A := by
  cases A
  simp [JonesMatrix.mul, JonesMatrix.one]

theorem calc_retardance_one : calc_retardance JonesMatrix.one = 0 := by
  unfold calc_retardance JonesMatrix.one
  rw [show ((1 : ℂ) + 1) = 2 by norm_num, Complex.abs_two]
  norm_num [Real.arccos_one]

theorem stepJMWith_dn_zero (f : ℝ → Vec3 → RayBasis → ℝ → JonesMatrix)
    (vp : VolParams) (off : ℤ × ℤ) (dir : RayBasis) (seg : Vox × ℝ)
    (h : vp 0 (shiftVox off seg.1).1 (shiftVox off seg.1).2.1
        (shiftVox off seg.1).2.2 = 0) :
    stepJMWith f vp off dir seg = JonesMatrix.one := by
  unfold stepJMWith
  simp only [h, if_pos rfl]
  simp

theorem foldl_step_all_zero (wl : ℝ) (vp : VolParams) (off : ℤ × ℤ)
    (dir : RayBasis) :
    ∀ (segs : List (Vox × ℝ)) (acc : JonesMatrix),
      (∀ seg ∈ segs, vp 0 (shiftVox off seg.1).1 (shiftVox off seg.1).2.1
          (shiftVox off seg.1).2.2 = 0) →
      segs.foldl
        (fun a s => (stepJMWith (voxRayJM wl) vp off dir s).mul a) acc = acc
  | [], acc, _ => rfl
  | seg :: rest, acc, h => by
    rw [List.foldl_cons,
      stepJMWith_dn_zero _ _ _ _ _ (h seg (List.mem_cons_self seg rest)),
      JonesMatrix.one_mul]
    exact foldl_step_all_zero wl vp off dir rest acc
      (fun s hs => h s (List.mem_cons_of_mem seg hs))

theorem calc_cummulative_all_zero (wl : ℝ) (vp : VolParams) (off : ℤ × ℤ)
    (dir : RayBasis) (segs : List (Vox × ℝ))
    (h : ∀ seg ∈ segs, vp 0 (shiftVox off seg.1).1 (shiftVox off seg.1).2.1
        (shiftVox off seg.1).2.2 = 0) :
    calc_cummulative_JM_of_ray wl vp off dir segs = JonesMatrix.one :=
  foldl_step_all_zero wl vp off dir segs JonesMatrix.one h

theorem writePixels_aux_zero :
    ∀ (vals : List ((ℕ × ℕ) × ℝ)) (g : ℕ → ℕ → ℝ) (i j : ℕ),
      (∀ v ∈ vals, v.2 = 0) → g i j = 0 →
      (vals.foldl
        (fun g0 iv => fun i0 j0 =>
          if i0 = iv.1.1 ∧ j0 = iv.1.2 then iv.2 else g0 i0 j0) g) i j = 0
  | [], _, _, _, _, hg => hg
  | v :: rest, g, i, j, h, hg => by
    rw [List.foldl_cons]
    refine writePixels_aux_zero rest _ i j
      (fun w hw => h w (List.mem_cons_of_mem v hw)) ?_
    by_cases hc : i = v.1.1 ∧ j = v.1.2
    · simp only [hc, if_pos]
      exact h v (List.mem_cons_self v rest)
    · simp only [if_neg hc]
      exact hg

/-- C2: for every ray whose traversed voxels all have birefringence zero
(which subsumes the ray with an empty segment list, whose hypothesis is
vacuous), the accumulated effective Jones matrix is the identity and its
retardance is 0; moreover over a volume with zero birefringence everywhere,
every pixel of the retardance image is 0. -/
theorem C2_all_zero_ray_identity :
    (∀ (wl : ℝ) (vp : VolParams) (off : ℤ × ℤ) (dir : RayBasis)
        (segs : List (Vox × ℝ)),
      (∀ seg ∈ segs, vp 0 (shiftVox off seg.1).1 (shiftVox off seg.1).2.1
          (shiftVox off seg.1).2.2 = 0) →
      calc_cummulative_JM_of_ray wl vp off dir segs = JonesMatrix.one ∧
      calc_retardance (calc_cummulative_JM_of_ray wl vp off dir segs) = 0) ∧
    ∀ (cfg : RTConfig) (vp : VolParams) (mlo : ℤ × ℤ),
      (∀ z y x, vp 0 z y x = 0) →
      ∀ row ∈ (ret_and_azim_images cfg vp mlo).1, ∀ v ∈ row, v = 0 := by
  constructor
  · intro wl vp off dir segs h
    refine ⟨calc_cummulative_all_zero wl vp off dir segs h, ?_⟩
    rw [calc_cummulative_all_zero wl vp off dir segs h, calc_retardance_one]
  · intro cfg vp mlo hz row hrow v hv
    simp only [ret_and_azim_images, List.mem_map, List.mem_range] at hrow
    obtain ⟨i, -, rfl⟩ := hrow
    simp only [List.mem_map, List.mem_range] at hv
    obtain ⟨j, -, rfl⟩ := hv
    unfold writePixels
    apply writePixels_aux_zero
    · intro w hw
      have h2 := (List.of_mem_zip hw).2
      simp only [List.mem_map] at h2
      obtain ⟨r, hr, hJ2⟩ := h2
      obtain ⟨r0, -, rfl⟩ := hr
      rw [← hJ2,
        calc_cummulative_all_zero _ _ _ _ _ (fun seg _ => hz _ _ _),
        calc_retardance_one]
    · rfl

/-- Witness for C2 at a concrete all-zero volume with one segment. -/
theorem C2_witness :
    calc_cummulative_JM_of_ray 1 vol0 (0, 0) bas0 [((0, 0, 0), 1)] =
        JonesMatrix.one ∧
    calc_retardance
        (calc_cummulative_JM_of_ray 1 vol0 (0, 0) bas0 [((0, 0, 0), 1)]) =
      0 :=
  C2_all_zero_ray_identity.1 1 vol0 (0, 0) bas0 [((0, 0, 0), 1)]
    (fun _ _ => rfl)

/-- C3: a collision segment whose voxel has Delta_n = 0 contributes the
identity matrix to the running product; the statement is quantified over the
per-voxel transform f, so the result holds no matter what the general formula
would compute: the short-circuit branch never evaluates it, and no division
by a degenerate axis can occur for such segments. -/
theorem C3_zero_dn_identity (f : ℝ → Vec3 → RayBasis → ℝ → JonesMatrix)
    (vp : VolParams) (off : ℤ × ℤ) (dir : RayBasis) (seg : Vox × ℝ)
    (h : vp 0 (shiftVox off seg.1).1 (shiftVox off seg.1).2.1
        (shiftVox off seg.1).2.2 = 0) :
    stepJMWith f vp off dir seg = JonesMatrix.one :=
  stepJMWith_dn_zero f vp off dir seg h

/-- Witness for C3: a transform that would return garbage is never reached. -/
theorem C3_witness :
    stepJMWith (fun _ _ _ _ => JonesMatrix.mk 5 6 7 8) vol0 (0, 0) bas0
      ((0, 0, 0), 1) = JonesMatrix.one :=
  C3_zero_dn_identity (fun _ _ _ _ => JonesMatrix.mk 5 6 7 8) vol0 (0, 0)
    bas0 ((0, 0, 0), 1) rfl

/-- C7: the retardance and azimuth extracted from a Jones matrix are
unchanged when the matrix is multiplied by a unit-modulus global phase. -/
theorem C7_phase_invariance (J : JonesMatrix) (z : ℂ)
    (hz : Complex.abs z = 1) :
    calc_retardance (JonesMatrix.smul z J) = calc_retardance J ∧
    calc_azimuth (JonesMatrix.smul z J) = calc_azimuth J := by
  have hzz : z * (starRingEnd ℂ) z = 1 := by
    rw [Complex.mul_conj]
    norm_cast
    rw [Complex.normSq_eq_abs, hz, one_pow]
  constructor
  · simp only [calc_retardance, JonesMatrix.smul]
    rw [show z * J.a + z * J.d = z * (J.a + J.d) by ring, map_mul, hz,
      one_mul]
  · simp only [calc_azimuth, JonesMatrix.smul]
    rw [show z * J.a + z * J.d = z * (J.a + J.d) by ring,
      show z * J.a - z * J.d = z * (J.a - J.d) by ring,
      show z * J.b + z * J.c = z * (J.b + J.c) by ring, map_mul,
      show z * (J.a - J.d) *
          ((starRingEnd ℂ) z * (starRingEnd ℂ) (J.a + J.d)) =
        z * (starRingEnd ℂ) z * ((J.a - J.d) * (starRingEnd ℂ) (J.a + J.d))
        by ring,
      show z * (J.b + J.c) *
          ((starRingEnd ℂ) z * (starRingEnd ℂ) (J.a + J.d)) =
        z * (starRingEnd ℂ) z * ((J.b + J.c) * (starRingEnd ℂ) (J.a + J.d))
        by ring,
      hzz, one_mul, one_mul]

/-- Witness for C7 with the concrete phase i. -/
theorem C7_witness :
    calc_retardance (JonesMatrix.smul Complex.I JonesMatrix.one) =
        calc_retardance JonesMatrix.one ∧
    calc_azimuth (JonesMatrix.smul Complex.I JonesMatrix.one) =
        calc_azimuth JonesMatrix.one :=
  C7_phase_invariance JonesMatrix.one Complex.I Complex.abs_I

theorem voxRayJM_comm (wl d1 d2 l1 l2 : ℝ) (ax : Vec3) (dir : RayBasis) :
    (voxRayJM wl d1 ax dir l1).mul (voxRayJM wl d2 ax dir l2) =
      (voxRayJM wl d2 ax dir l2).mul (voxRayJM wl d1 ax dir l1) := by
  simp only [voxRayJM, JonesMatrix.mul]
  ext <;> push_cast <;> ring

theorem voxRayJM_A :
    voxRayJM 2 1 (0, 1, 0) bas0 1 =
      JonesMatrix.mk Complex.I 0 0 (-Complex.I) := by
  simp only [voxRayJM, bas0, dot]
  norm_num

theorem voxRayJM_B :
    voxRayJM 2 1 (0, 1, 1) bas0 (1 / 2) =
      JonesMatrix.mk 0 Complex.I Complex.I 0 := by
  simp only [voxRayJM, bas0, dot]
  norm_num
  rw [show (2 * (Real.pi : ℂ) * (1 / 2) / 2 : ℂ) = (Real.pi : ℂ) / 2 by ring]
  exact ⟨Complex.cos_pi_div_two, Complex.sin_pi_div_two,
    Complex.cos_pi_div_two⟩

theorem stepJM_vpAB_A :
    stepJMWith (voxRayJM 2) vpAB (0, 0) bas0 ((0, 0, 0), 1) =
      JonesMatrix.mk Complex.I 0 0 (-Complex.I) := by
  simp only [stepJMWith, shiftVox, vpAB]
  norm_num
  exact voxRayJM_A

theorem stepJM_vpAB_B :
    stepJMWith (voxRayJM 2) vpAB (0, 0) bas0 ((0, 0, 1), 1 / 2) =
      JonesMatrix.mk 0 Complex.I Complex.I 0 := by
  simp only [stepJMWith, shiftVox, vpAB]
  norm_num
  exact voxRayJM_B

/-- C1: composition order of the Ray Accumulator. First conjunct: for the
crafted pair of voxels A = (0,0,0) with axis (0,1,0) and B = (0,0,1) with
axis (0,1,1) of the volume vpAB, the ray visiting A then B accumulates a
different effective matrix than the ray visiting B then A. Second conjunct:
those two axes are not parallel. Third conjunct: whenever the two traversed
voxels carry the same optic axis, the two visiting orders accumulate equal
effective matrices, whatever their birefringence values and path lengths. -/
theorem C1_composition_order :
    calc_cummulative_JM_of_ray 2 vpAB (0, 0) bas0
        [((0, 0, 0), 1), ((0, 0, 1), 1 / 2)] ≠
      calc_cummulative_JM_of_ray 2 vpAB (0, 0) bas0
        [((0, 0, 1), 1 / 2), ((0, 0, 0), 1)] ∧
    (∀ t : ℝ, ((0 : ℝ), (1 : ℝ), (1 : ℝ)) ≠ (t * 0, t * 1, t * 0)) ∧
    ∀ (wl : ℝ) (vp : VolParams) (off : ℤ × ℤ) (dir : RayBasis)
      (vA vB : Vox) (lA lB : ℝ),
      (vp 1 (shiftVox off vA).1 (shiftVox off vA).2.1 (shiftVox off vA).2.2,
       vp 2 (shiftVox off vA).1 (shiftVox off vA).2.1 (shiftVox off vA).2.2,
       vp 3 (shiftVox off vA).1 (shiftVox off vA).2.1
         (shiftVox off vA).2.2) =
      (vp 1 (shiftVox off vB).1 (shiftVox off vB).2.1 (shiftVox off vB).2.2,
       vp 2 (shiftVox off vB).1 (shiftVox off vB).2.1 (shiftVox off vB).2.2,
       vp 3 (shiftVox off vB).1 (shiftVox off vB).2.1
         (shiftVox off vB).2.2) →
      calc_cummulative_JM_of_ray wl vp off dir [(vA, lA), (vB, lB)] =
        calc_cummulative_JM_of_ray wl vp off dir [(vB, lB), (vA, lA)] := by
  refine ⟨?_, ?_, ?_⟩
  · simp only [calc_cummulative_JM_of_ray, List.foldl_cons, List.foldl_nil,
      stepJM_vpAB_A, stepJM_vpAB_B, JonesMatrix.mul_one]
    intro h
    have hb := congrArg JonesMatrix.b h
    simp only [JonesMatrix.mul, JonesMatrix.one] at hb
    rw [show ((0 : ℂ) * 0 + Complex.I * -Complex.I) = 1 by
        simp [Complex.I_mul_I],
      show (Complex.I * Complex.I + 0 * 0 : ℂ) = -1 by
        simp [Complex.I_mul_I]] at hb
    norm_num at hb
  · intro t h
    have h3 := congrArg (fun p : ℝ × ℝ × ℝ => p.2.2) h
    simp at h3
  · intro wl vp off dir vA vB lA lB haxis
    rw [Prod.mk.injEq, Prod.mk.injEq] at haxis
    obtain ⟨e1, e2, e3⟩ := haxis
    simp only [calc_cummulative_JM_of_ray, List.foldl_cons, List.foldl_nil,
      JonesMatrix.mul_one]
    simp only [stepJMWith]
    by_cases hA0 : vp 0 (shiftVox off vA).1 (shiftVox off vA).2.1
        (shiftVox off vA).2.2 = 0 <;>
      by_cases hB0 : vp 0 (shiftVox off vB).1 (shiftVox off vB).2.1
        (shiftVox off vB).2.2 = 0
    · rw [if_pos hA0, if_pos hB0]
    · rw [if_pos hA0, if_neg hB0, JonesMatrix.one_mul, JonesMatrix.mul_one]
    · rw [if_neg hA0, if_pos hB0, JonesMatrix.one_mul, JonesMatrix.mul_one]
    · rw [if_neg hA0, if_neg hB0, e1, e2, e3]
      exact voxRayJM_comm wl _ _ lB lA _ dir

/-- Witness for the commuting conjunct of C1, at the volume vpAB shifted so
that both segments address voxel A and therefore share its optic axis. -/
theorem C1_witness :
    calc_cummulative_JM_of_ray 2 vpAB (0, 0) bas0
        [((0, 0, 0), 1), ((0, 0, 0), 1 / 2)] =
      calc_cummulative_JM_of_ray 2 vpAB (0, 0) bas0
        [((0, 0, 0), 1 / 2), ((0, 0, 0), 1)] :=
  C1_composition_order.2.2 2 vpAB (0, 0) bas0 (0, 0, 0) (0, 0, 0) 1 (1 / 2)
    rfl

theorem imgShape_ret (cfg : RTConfig) (vp : VolParams) (mlo : ℤ × ℤ) :
    imgShape (ret_and_azim_images cfg vp mlo).1 cfg.pixels_per_ml
      cfg.pixels_per_ml := by
  constructor
  · simp [ret_and_azim_images]
  · intro row hrow
    simp only [ret_and_azim_images, List.mem_map, List.mem_range] at hrow
    obtain ⟨i, -, rfl⟩ := hrow
    simp

theorem imgShape_azim (cfg : RTConfig) (vp : VolParams) (mlo : ℤ × ℤ) :
    imgShape (ret_and_azim_images cfg vp mlo).2 cfg.pixels_per_ml
      cfg.pixels_per_ml := by
  constructor
  · simp [ret_and_azim_images]
  · intro row hrow
    simp only [ret_and_azim_images, List.mem_map, List.mem_range] at hrow
    obtain ⟨i, -, rfl⟩ := hrow
    simp

theorem foldl_append_shape :
    ∀ (xs : List (List (List ℝ))) (acc : List (List ℝ)) (ra r c : ℕ),
      imgShape acc ra c → (∀ m ∈ xs, imgShape m r c) →
      imgShape (xs.foldl (fun a y => a ++ y) acc) (ra + xs.length * r) c
  | [], acc, ra, r, c, hacc, _ => by simpa using hacc
  | y :: ys, acc, ra, r, c, hacc, h => by
    rw [List.foldl_cons]
    have hy := h y (List.mem_cons_self y ys)
    have hacc2 : imgShape (acc ++ y) (ra + r) c := by
      constructor
      · rw [List.length_append, hacc.1, hy.1]
      · intro row hrow
        rcases List.mem_append.mp hrow with h1 | h2
        · exact hacc.2 row h1
        · exact hy.2 row h2
    have hres := foldl_append_shape ys (acc ++ y) (ra + r) r c hacc2
      (fun m hm => h m (List.mem_cons_of_mem y hm))
    rw [show ra + r + ys.length * r = ra + (y :: ys).length * r by
      simp [List.length_cons]; ring] at hres
    exact hres

theorem zipWith_append_shape :
    ∀ (xa xb : List (List ℝ)) (ca cb : ℕ),
      (∀ row ∈ xa, row.length = ca) → (∀ row ∈ xb, row.length = cb) →
      xa.length = xb.length →
      (List.zipWith (fun u v => u ++ v) xa xb).length = xa.length ∧
      ∀ row ∈ List.zipWith (fun u v => u ++ v) xa xb,
        row.length = ca + cb
  | [], _, ca, cb, _, _, hlen => by
    refine ⟨by simp, ?_⟩
    intro row hrow
    simp at hrow
  | u :: us, [], ca, cb, _, _, hlen => by simp at hlen
  | u :: us, v :: vs, ca, cb, ha, hb, hlen => by
    have ih := zipWith_append_shape us vs ca cb
      (fun row hr => ha row (List.mem_cons_of_mem u hr))
      (fun row hr => hb row (List.mem_cons_of_mem v hr))
      (by simpa using hlen)
    refine ⟨by simpa using ih.1, ?_⟩
    intro row hrow
    rcases List.mem_cons.mp hrow with h1 | h2
    · subst h1
      rw [List.length_append, ha u (List.mem_cons_self u us),
        hb v (List.mem_cons_self v vs)]
    · exact ih.2 row h2

theorem foldl_zipWith_shape :
    ∀ (xs : List (List (List ℝ))) (acc : List (List ℝ)) (r ca c : ℕ),
      imgShape acc r ca → (∀ m ∈ xs, imgShape m r c) →
      imgShape
        (xs.foldl (fun a y => List.zipWith (fun u v => u ++ v) a y) acc)
        r (ca + xs.length * c)
  | [], acc, r, ca, c, hacc, _ => by simpa using hacc
  | y :: ys, acc, r, ca, c, hacc, h => by
    rw [List.foldl_cons]
    have hy := h y (List.mem_cons_self y ys)
    have hz := zipWith_append_shape acc y ca c hacc.2 hy.2
      (by rw [hacc.1, hy.1])
    have hacc2 : imgShape (List.zipWith (fun u v => u ++ v) acc y) r
        (ca + c) := ⟨by rw [hz.1, hacc.1], hz.2⟩
    have hres := foldl_zipWith_shape ys _ r (ca + c) c hacc2
      (fun m hm => h m (List.mem_cons_of_mem y hm))
    rw [show ca + c + ys.length * c = ca + (y :: ys).length * c by
      simp [List.length_cons]; ring] at hres
    exact hres

theorem catRows_shape (l : List (List (List ℝ))) (r c : ℕ) (hl : l ≠ [])
    (h : ∀ m ∈ l, imgShape m r c) :
    imgShape (catRows l) (l.length * r) c := by
  match l with
  | [] => exact absurd rfl hl
  | x :: xs =>
    have hres := foldl_append_shape xs x r r c
      (h x (List.mem_cons_self x xs))
      (fun m hm => h m (List.mem_cons_of_mem x hm))
    rw [show r + xs.length * r = (x :: xs).length * r by
      simp [List.length_cons]; ring] at hres
    exact hres

theorem catCols_shape (l : List (List (List ℝ))) (r c : ℕ) (hl : l ≠ [])
    (h : ∀ m ∈ l, imgShape m r c) :
    imgShape (catCols l) r (l.length * c) := by
  match l with
  | [] => exact absurd rfl hl
  | x :: xs =>
    have hres := foldl_zipWith_shape xs x r c c
      (h x (List.mem_cons_self x xs))
      (fun m hm => h m (List.mem_cons_of_mem x hm))
    rw [show c + xs.length * c = (x :: xs).length * c by
      simp [List.length_cons]; ring] at hres
    exact hres

theorem catRows_singleton (x : List (List ℝ)) : catRows [x] = x := rfl

theorem catCols_singleton (x : List (List ℝ)) : catCols [x] = x := rfl

theorem length_centeredRange (h : ℕ) :
    (centeredRange h).length = 2 * h + 1 := by
  unfold centeredRange
  rw [List.length_map, List.length_range]

theorem map_centeredRange_ne_nil {α : Type} (h : ℕ) (f : ℤ → α) :
    (centeredRange h).map f ≠ [] := by
  intro hc
  have h2 := congrArg List.length hc
  rw [List.length_map, length_centeredRange] at h2
  simp at h2

theorem mem_centeredRange (h : ℕ) (z : ℤ) :
    z ∈ centeredRange h ↔ -(h : ℤ) ≤ z ∧ z ≤ (h : ℤ) := by
  unfold centeredRange
  rw [List.mem_map]
  constructor
  · rintro ⟨k, hk, rfl⟩
    rw [List.mem_range] at hk
    omega
  · rintro ⟨h1, h2⟩
    exact ⟨(z + h).toNat, List.mem_range.mpr (by omega), by omega⟩

theorem ray_trace_shape (cfg : RTConfig) (shape : ℕ × ℕ) (vp : VolParams)
    (hfit : cfg.voxel_span_per_ml * (cfg.n_micro_lenses : ℚ) <
      (shape.1 : ℚ)) :
    ∃ r a, ray_trace_through_volume cfg shape vp = Except.ok (r, a) ∧
      imgShape r ((2 * (cfg.n_micro_lenses / 2) + 1) * cfg.pixels_per_ml)
        ((2 * (cfg.n_micro_lenses / 2) + 1) * cfg.pixels_per_ml) ∧
      imgShape a ((2 * (cfg.n_micro_lenses / 2) + 1) * cfg.pixels_per_ml)
        ((2 * (cfg.n_micro_lenses / 2) + 1) * cfg.pixels_per_ml) := by
  simp only [ray_trace_through_volume]
  rw [if_pos hfit]
  refine ⟨_, _, rfl, ?_, ?_⟩
  · have hcat := catCols_shape
      ((centeredRange (cfg.n_micro_lenses / 2)).map (fun ml_ii =>
        catRows ((centeredRange (cfg.n_micro_lenses / 2)).map (fun ml_jj =>
          (ret_and_azim_images cfg vp (cfg.n_voxels_per_ml * ml_ii,
            cfg.n_voxels_per_ml * ml_jj)).1))))
      ((2 * (cfg.n_micro_lenses / 2) + 1) * cfg.pixels_per_ml)
      cfg.pixels_per_ml (map_centeredRange_ne_nil _ _) ?_
    · rw [List.length_map, length_centeredRange] at hcat
      exact hcat
    · intro m hm
      simp only [List.mem_map] at hm
      obtain ⟨ml_ii, -, rfl⟩ := hm
      have hrows := catRows_shape
        ((centeredRange (cfg.n_micro_lenses / 2)).map (fun ml_jj =>
          (ret_and_azim_images cfg vp (cfg.n_voxels_per_ml * ml_ii,
            cfg.n_voxels_per_ml * ml_jj)).1))
        cfg.pixels_per_ml cfg.pixels_per_ml
        (map_centeredRange_ne_nil _ _) ?_
      · rw [List.length_map, length_centeredRange] at hrows
        exact hrows
      · intro t ht
        simp only [List.mem_map] at ht
        obtain ⟨ml_jj, -, rfl⟩ := ht
        exact imgShape_ret cfg vp _
  · have hcat := catCols_shape
      ((centeredRange (cfg.n_micro_lenses / 2)).map (fun ml_ii =>
        catRows ((centeredRange (cfg.n_micro_lenses / 2)).map (fun ml_jj =>
          (ret_and_azim_images cfg vp (cfg.n_voxels_per_ml * ml_ii,
            cfg.n_voxels_per_ml * ml_jj)).2))))
      ((2 * (cfg.n_micro_lenses / 2) + 1) * cfg.pixels_per_ml)
      cfg.pixels_per_ml (map_centeredRange_ne_nil _ _) ?_
    · rw [List.length_map, length_centeredRange] at hcat
      exact hcat
    · intro m hm
      simp only [List.mem_map] at hm
      obtain ⟨ml_ii, -, rfl⟩ := hm
      have hrows := catRows_shape
        ((centeredRange (cfg.n_micro_lenses / 2)).map (fun ml_jj =>
          (ret_and_azim_images cfg vp (cfg.n_voxels_per_ml * ml_ii,
            cfg.n_voxels_per_ml * ml_jj)).2))
        cfg.pixels_per_ml cfg.pixels_per_ml
        (map_centeredRange_ne_nil _ _) ?_
      · rw [List.length_map, length_centeredRange] at hrows
        exact hrows
      · intro t ht
        simp only [List.mem_map] at ht
        obtain ⟨ml_jj, -, rfl⟩ := ht
        exact imgShape_azim cfg vp _

theorem centeredRange_zero : centeredRange 0 = [0] := by decide

/-- C4 (amended): the tiler's fit check compares the total micro-lens voxel
span against the first transverse extent volume_shape[0] only; when that
check fails the tiler returns a configuration error before any tile or image
is computed (the error constructor carries no image data). The second
transverse extent is not checked; see the counterexample. -/
theorem C4_fit_check_first_axis (cfg : RTConfig) (shape : ℕ × ℕ)
    (vp : VolParams)
    (h : ¬ cfg.voxel_span_per_ml * (cfg.n_micro_lenses : ℚ) <
      (shape.1 : ℚ)) :
    ray_trace_through_volume cfg shape vp =
      Except.error "No full micro-lenses fit inside this volume." := by
  simp only [ray_trace_through_volume]
  rw [if_neg h]

/-- Witness for C4 on a volume whose first transverse extent is too small. -/
theorem C4_witness :
    ray_trace_through_volume cfgTwo (3, 3) vol0 =
      Except.error "No full micro-lenses fit inside this volume." :=
  C4_fit_check_first_axis cfgTwo (3, 3) vol0 (by norm_num [cfgTwo])

/-- Counterexample for C4 as stated: the footprint (span 2 times 2 lenses
= 4 voxels) exceeds the second transverse extent (1 voxel) of the volume,
yet the fit check passes, because only the first extent (100) is compared,
and a full image is produced instead of a configuration error. -/
theorem C4_counterexample :
    ¬ cfgTwo.voxel_span_per_ml * (cfgTwo.n_micro_lenses : ℚ) <
        ((1 : ℕ) : ℚ) ∧
    ∃ imgs, ray_trace_through_volume cfgTwo (100, 1) vol0 =
      Except.ok imgs := by
  constructor
  · norm_num [cfgTwo]
  · simp only [ray_trace_through_volume]
    rw [if_pos (by norm_num [cfgTwo])]
    exact ⟨_, rfl⟩

/-- C5 (amended): under the fit precondition the tiler iterates micro-lens
indexes over the centered integer range from -floor(n/2) to floor(n/2)
inclusive, and the assembled retardance and azimuth images are square with
side (2 * floor(n/2) + 1) * pixels_per_ml; for odd n this equals
n * pixels_per_ml, while for even n the loop runs n + 1 times per axis (see
the counterexample). -/
theorem C5_centered_range_and_shape (cfg : RTConfig) (shape : ℕ × ℕ)
    (vp : VolParams)
    (hfit : cfg.voxel_span_per_ml * (cfg.n_micro_lenses : ℚ) <
      (shape.1 : ℚ)) :
    (∀ z : ℤ, z ∈ centeredRange (cfg.n_micro_lenses / 2) ↔
      -((cfg.n_micro_lenses / 2 : ℕ) : ℤ) ≤ z ∧
        z ≤ ((cfg.n_micro_lenses / 2 : ℕ) : ℤ)) ∧
    ∃ r a, ray_trace_through_volume cfg shape vp = Except.ok (r, a) ∧
      imgShape r ((2 * (cfg.n_micro_lenses / 2) + 1) * cfg.pixels_per_ml)
        ((2 * (cfg.n_micro_lenses / 2) + 1) * cfg.pixels_per_ml) ∧
      imgShape a ((2 * (cfg.n_micro_lenses / 2) + 1) * cfg.pixels_per_ml)
        ((2 * (cfg.n_micro_lenses / 2) + 1) * cfg.pixels_per_ml) :=
  ⟨fun z => mem_centeredRange _ z, ray_trace_shape cfg shape vp hfit⟩

/-- Witness for C5 at the concrete single-micro-lens configuration. -/
theorem C5_witness :
    (∀ z : ℤ, z ∈ centeredRange (cfgOne.n_micro_lenses / 2) ↔
      -((cfgOne.n_micro_lenses / 2 : ℕ) : ℤ) ≤ z ∧
        z ≤ ((cfgOne.n_micro_lenses / 2 : ℕ) : ℤ)) ∧
    ∃ r a, ray_trace_through_volume cfgOne (1, 1) vol0 =
        Except.ok (r, a) ∧
      imgShape r
        ((2 * (cfgOne.n_micro_lenses / 2) + 1) * cfgOne.pixels_per_ml)
        ((2 * (cfgOne.n_micro_lenses / 2) + 1) * cfgOne.pixels_per_ml) ∧
      imgShape a
        ((2 * (cfgOne.n_micro_lenses / 2) + 1) * cfgOne.pixels_per_ml)
        ((2 * (cfgOne.n_micro_lenses / 2) + 1) * cfgOne.pixels_per_ml) :=
  C5_centered_range_and_shape cfgOne (1, 1) vol0 (by norm_num [cfgOne])

/-- Counterexample for C5 as stated: with n = 2 micro-lenses and 1 pixel per
micro-lens (fit precondition satisfied: span 4 is below extent 100), the
assembled image has 3 rows, not n * pixels_per_ml = 2. -/
theorem C5_counterexample :
    ∃ r a, ray_trace_through_volume cfgTwo (100, 100) vol0 =
        Except.ok (r, a) ∧
      r.length = 3 ∧ cfgTwo.n_micro_lenses * cfgTwo.pixels_per_ml = 2 ∧
      r.length ≠ cfgTwo.n_micro_lenses * cfgTwo.pixels_per_ml := by
  obtain ⟨r, a, heq, hr, -⟩ :=
    ray_trace_shape cfgTwo (100, 100) vol0 (by norm_num [cfgTwo])
  have hlen : r.length = 3 := by
    have h3 := hr.1
    norm_num [cfgTwo] at h3
    exact h3
  exact ⟨r, a, heq, hlen, by norm_num [cfgTwo], by rw [hlen]; norm_num [cfgTwo]⟩

/-- C6: with a single micro-lens the tiler's loops run exactly once with a
zero offset, so the full image equals the direct per-micro-lens computation
with micro_lens_offset (0, 0). -/
theorem C6_single_micro_lens (cfg : RTConfig) (shape : ℕ × ℕ)
    (vp : VolParams) (h1 : cfg.n_micro_lenses = 1)
    (hfit : cfg.voxel_span_per_ml * (cfg.n_micro_lenses : ℚ) <
      (shape.1 : ℚ)) :
    ray_trace_through_volume cfg shape vp =
      Except.ok (ret_and_azim_images cfg vp (0, 0)) := by
  simp only [ray_trace_through_volume]
  rw [if_pos hfit, h1]
  norm_num [centeredRange_zero, catRows_singleton, catCols_singleton]

/-- Witness for C6 at the concrete single-micro-lens configuration. -/
theorem C6_witness :
    ray_trace_through_volume cfgOne (1, 1) vol0 =
      Except.ok (ret_and_azim_images cfgOne vol0 (0, 0)) :=
  C6_single_micro_lens cfgOne (1, 1) vol0 rfl (by norm_num [cfgOne])

theorem getD_map_range {α : Type} (f : ℕ → α) (d : α) {p i : ℕ}
    (hi : i < p) : ((List.range p).map f).getD i d = f i := by
  rw [List.getD_eq_getElem _ _ (by simpa using hi)]
  simp

theorem writePixels_not_mem :
    ∀ (vals : List ((ℕ × ℕ) × ℝ)) (g : ℕ → ℕ → ℝ) (i j : ℕ),
      (i, j) ∉ vals.map Prod.fst →
      vals.foldl
        (fun g0 iv => fun i0 j0 =>
          if i0 = iv.1.1 ∧ j0 = iv.1.2 then iv.2 else g0 i0 j0) g i j =
        g i j
  | [], _, _, _, _ => rfl
  | v :: rest, g, i, j, h => by
    rw [List.foldl_cons]
    have hrest : (i, j) ∉ rest.map Prod.fst := by
      intro hm
      exact h (by simp [List.mem_cons] at hm ⊢; right; exact hm)
    rw [writePixels_not_mem rest _ i j hrest]
    have hne : ¬(i = v.1.1 ∧ j = v.1.2) := by
      intro hc
      apply h
      simp only [List.map_cons, List.mem_cons]
      left
      rw [hc.1, hc.2]
    rw [if_neg hne]

/-- C10: a pixel coordinate that does not occur among the valid ray indexes
keeps the value 0 in both the retardance and the azimuth tile: the images
start as zeros and the assignment loop only writes at ray pixels. -/
theorem C10_unwritten_pixels_zero (cfg : RTConfig) (vp : VolParams)
    (mlo : ℤ × ℤ) (i j : ℕ) (hi : i < cfg.pixels_per_ml)
    (hj : j < cfg.pixels_per_ml)
    (h : (i, j) ∉ cfg.rays.map RayData.pix) :
    ((ret_and_azim_images cfg vp mlo).1.getD i []).getD j 0 = 0 ∧
    ((ret_and_azim_images cfg vp mlo).2.getD i []).getD j 0 = 0 := by
  have hmap : ∀ vv : List ℝ, vv.length = cfg.rays.length →
      (i, j) ∉ (List.zip (cfg.rays.map RayData.pix) vv).map Prod.fst := by
    intro vv hlen hmem
    rw [List.map_fst_zip _ _ (by rw [List.length_map, hlen])] at hmem
    exact h hmem
  constructor
  · simp only [ret_and_azim_images]
    rw [getD_map_range _ _ hi, getD_map_range _ _ hj]
    unfold writePixels
    rw [writePixels_not_mem _ _ i j (hmap _ (by simp))]
  · simp only [ret_and_azim_images]
    rw [getD_map_range _ _ hi, getD_map_range _ _ hj]
    unfold writePixels
    rw [writePixels_not_mem _ _ i j (hmap _ (by simp))]

/-- Witness for C10: in a 2 by 2 tile with a single ray at pixel (0, 0),
pixel (1, 1) reads 0 in both images. -/
theorem C10_witness :
    ((ret_and_azim_images cfgPix vol0 (0, 0)).1.getD 1 []).getD 1 0 = 0 ∧
    ((ret_and_azim_images cfgPix vol0 (0, 0)).2.getD 1 []).getD 1 0 = 0 :=
  C10_unwritten_pixels_zero cfgPix vol0 (0, 0) 1 1 (by norm_num [cfgPix])
    (by norm_num [cfgPix]) (by simp [cfgPix])

theorem ellipsoid_mask_eq_one (shape : ℕ × ℕ × ℕ)
    (center radius : ℝ × ℝ × ℝ) (alpha : ℝ) (k j i : ℕ)
    (h : ellipsoid_mask shape center radius alpha k j i ≠ 0) :
    ellipsoid_mask shape center radius alpha k j i = 1 := by
  unfold ellipsoid_mask at h ⊢
  split_ifs at h ⊢ with hc
  · rfl
  · exact absurd rfl h

theorem ellipsoid_cc_eval : ellipsoid_cc (1 / 2) 3 1 = 0 := by
  unfold ellipsoid_cc
  rw [show ((1 : ℝ) / 2) * ((3 : ℕ) : ℝ) = 3 / 2 by push_cast; ring]
  rw [show ⌊(3 / 2 : ℝ)⌋ = 1 by
    rw [Int.floor_eq_iff]
    constructor <;> norm_num]
  norm_num

theorem ellipsoid_center_ch0 :
    generate_ellipsoid_volume (3, 3, 3) (1 / 2, 1 / 2, 1 / 2)
      (5, 15 / 2, 15 / 2) (1 / 10) (1 / 10) 0 1 1 1 = 1 / 10 := by
  simp only [generate_ellipsoid_volume, ellipsoid_mask, ellipsoid_cc_eval]
  norm_num [abs_le]

theorem ellipsoid_center_ax1 :
    generate_ellipsoid_volume (3, 3, 3) (1 / 2, 1 / 2, 1 / 2)
      (5, 15 / 2, 15 / 2) (1 / 10) (1 / 10) 1 1 1 1 = 0 := by
  simp only [generate_ellipsoid_volume, ellipsoid_cc_eval]
  norm_num

theorem ellipsoid_center_ax2 :
    generate_ellipsoid_volume (3, 3, 3) (1 / 2, 1 / 2, 1 / 2)
      (5, 15 / 2, 15 / 2) (1 / 10) (1 / 10) 2 1 1 1 = 0 := by
  simp only [generate_ellipsoid_volume, ellipsoid_cc_eval]
  norm_num

theorem ellipsoid_center_ax3 :
    generate_ellipsoid_volume (3, 3, 3) (1 / 2, 1 / 2, 1 / 2)
      (5, 15 / 2, 15 / 2) (1 / 10) (1 / 10) 3 1 1 1 = 0 := by
  simp only [generate_ellipsoid_volume, ellipsoid_cc_eval]
  norm_num

/-- Counterexample for C8 as stated: the ellipsoid preset on a 3 cubed
volume (center 0.5, the radius and delta_n used by init_volume) marks the
exact-center voxel (1,1,1) with nonzero birefringence 0.1, but its axis
channels are all 0 because the surface normal vanishes there, so the axis is
not a unit vector under any tolerance below 1. -/
theorem C8_counterexample :
    ¬ axis_unit_invariant
        (generate_ellipsoid_volume (3, 3, 3) (1 / 2, 1 / 2, 1 / 2)
          (5, 15 / 2, 15 / 2) (1 / 10) (1 / 10)) (3, 3, 3) (1 / 2) := by
  intro hinv
  have h := hinv 1 1 1 (by norm_num) (by norm_num) (by norm_num)
    (by rw [ellipsoid_center_ch0]; norm_num)
  rw [ellipsoid_center_ax1, ellipsoid_center_ax2, ellipsoid_center_ax3] at h
  norm_num at h

theorem div_sq_sum_eq_one (x y z n : ℝ)
    (hn : n ^ 2 = x ^ 2 + y ^ 2 + z ^ 2)
    (hx : x ^ 2 + y ^ 2 + z ^ 2 ≠ 0) :
    (x / n) ^ 2 + (y / n) ^ 2 + (z / n) ^ 2 = 1 := by
  rw [div_pow, div_pow, div_pow, hn, div_add_div_same, div_add_div_same,
    div_self hx]

/-- C8 (amended): the preset volumes satisfy the unit-axis invariant away
from the degenerate normalizations: the zeros preset vacuously; the
single-plane preset exactly; the random preset at any draw whose raw axis
sample is nonzero at every voxel; the ellipsoid preset whenever the surface
normal is nonzero at every voxel of the grid. At degenerate voxels (the
ellipsoid center, a zero-length random draw) the invariant fails, see the
counterexample. -/
theorem C8_presets_invariant :
    (∀ (shape : ℕ × ℕ × ℕ) (tol : ℝ), 0 ≤ tol →
      axis_unit_invariant generate_zeros_volume shape tol) ∧
    (∀ shape : ℕ × ℕ × ℕ,
      axis_unit_invariant (generate_planes_volume1 shape) shape 0) ∧
    (∀ (dn a0 a1 a2 : ℕ → ℕ → ℕ → ℝ) (shape : ℕ × ℕ × ℕ),
      (∀ k j i : ℕ, ¬(a0 k j i = 0 ∧ a1 k j i = 0 ∧ a2 k j i = 0)) →
      axis_unit_invariant (generate_random_volume dn a0 a1 a2) shape 0) ∧
    (∀ (shape : ℕ × ℕ × ℕ) (center radius : ℝ × ℝ × ℝ)
        (alpha delta_n : ℝ),
      (∀ k j i : ℕ, k < shape.1 → j < shape.2.1 → i < shape.2.2 →
        ellipsoid_normal_sq shape center radius k j i ≠ 0) →
      axis_unit_invariant
        (generate_ellipsoid_volume shape center radius alpha delta_n)
        shape 0) := by
  refine ⟨?_, ?_, ?_, ?_⟩
  · intro shape tol htol k j i _ _ _ h0
    exact absurd rfl h0
  · intro shape k j i hk hj hi h0
    by_cases hkp : k = shape.1 / 2 + 4
    · simp only [generate_planes_volume1, if_pos hkp]
      norm_num
    · exact absurd (by simp [generate_planes_volume1, hkp]) h0
  · intro dn a0 a1 a2 shape hnz k j i hk hj hi h0
    have hs0 : (0 : ℝ) ≤ a0 k j i ^ 2 + a1 k j i ^ 2 + a2 k j i ^ 2 := by
      positivity
    have hs : (0 : ℝ) < a0 k j i ^ 2 + a1 k j i ^ 2 + a2 k j i ^ 2 := by
      rcases lt_or_eq_of_le hs0 with hlt | heq
      · exact hlt
      · exfalso
        apply hnz k j i
        have e0 : a0 k j i ^ 2 = 0 := le_antisymm
          (by nlinarith [sq_nonneg (a1 k j i), sq_nonneg (a2 k j i)])
          (sq_nonneg _)
        have e1 : a1 k j i ^ 2 = 0 := le_antisymm
          (by nlinarith [sq_nonneg (a0 k j i), sq_nonneg (a2 k j i)])
          (sq_nonneg _)
        have e2 : a2 k j i ^ 2 = 0 := le_antisymm
          (by nlinarith [sq_nonneg (a0 k j i), sq_nonneg (a1 k j i)])
          (sq_nonneg _)
        exact ⟨sq_eq_zero_iff.mp e0, sq_eq_zero_iff.mp e1,
          sq_eq_zero_iff.mp e2⟩
    have hn2 : random_axis_divisor a0 a1 a2 k j i ^ 2 =
        a0 k j i ^ 2 + a1 k j i ^ 2 + a2 k j i ^ 2 := Real.sq_sqrt hs0
    have key := div_sq_sum_eq_one (a0 k j i) (a1 k j i) (a2 k j i)
      (random_axis_divisor a0 a1 a2 k j i) hn2 (ne_of_gt hs)
    simp only [generate_random_volume]
    norm_num
    linear_combination key
  · intro shape center radius alpha delta_n hnz k j i hk hj hi h0
    have hs0 : (0 : ℝ) ≤ ellipsoid_normal_sq shape center radius k j i := by
      unfold ellipsoid_normal_sq
      positivity
    have hs : (0 : ℝ) < ellipsoid_normal_sq shape center radius k j i :=
      lt_of_le_of_ne hs0 (Ne.symm (hnz k j i hk hj hi))
    have hsq : Real.sqrt (ellipsoid_normal_sq shape center radius k j i) ≠
        0 := ne_of_gt (Real.sqrt_pos.mpr hs)
    have hnf : ellipsoid_axis_divisor shape center radius k j i =
        Real.sqrt (ellipsoid_normal_sq shape center radius k j i) := by
      unfold ellipsoid_axis_divisor replaceZeroNorm
      rw [if_neg hsq]
    have hnf2 : ellipsoid_axis_divisor shape center radius k j i ^ 2 =
        ellipsoid_normal_sq shape center radius k j i := by
      rw [hnf]
      exact Real.sq_sqrt hs0
    have hs' : (2 * ellipsoid_cc center.1 shape.1 k / radius.1) ^ 2 +
        (2 * ellipsoid_cc center.2.1 shape.2.1 j / radius.2.1) ^ 2 +
        (2 * ellipsoid_cc center.2.2 shape.2.2 i / radius.2.2) ^ 2 ≠ 0 := by
      unfold ellipsoid_normal_sq at hs
      exact ne_of_gt hs
    have hn2 : ellipsoid_axis_divisor shape center radius k j i ^ 2 =
        (2 * ellipsoid_cc center.1 shape.1 k / radius.1) ^ 2 +
        (2 * ellipsoid_cc center.2.1 shape.2.1 j / radius.2.1) ^ 2 +
        (2 * ellipsoid_cc center.2.2 shape.2.2 i / radius.2.2) ^ 2 := by
      rw [hnf2]
      unfold ellipsoid_normal_sq
      rfl
    have key := div_sq_sum_eq_one
      (2 * ellipsoid_cc center.1 shape.1 k / radius.1)
      (2 * ellipsoid_cc center.2.1 shape.2.1 j / radius.2.1)
      (2 * ellipsoid_cc center.2.2 shape.2.2 i / radius.2.2)
      (ellipsoid_axis_divisor shape center radius k j i) hn2 hs'
    simp only [generate_ellipsoid_volume] at h0 ⊢
    norm_num at h0 ⊢
    have hm1 := ellipsoid_mask_eq_one shape center radius alpha k j i h0.1
    rw [hm1, mul_one, mul_one, mul_one]
    linear_combination key

/-- Witness for C8 at a concrete random draw with a nonzero axis sample. -/
theorem C8_witness :
    axis_unit_invariant
      (generate_random_volume zeroSample (fun _ _ _ => 1) zeroSample
        zeroSample) (1, 1, 1) 0 :=
  C8_presets_invariant.2.2.1 zeroSample (fun _ _ _ => 1) zeroSample
    zeroSample (1, 1, 1) (fun _ _ _ h => absurd h.1 one_ne_zero)

/-- C9 (amended): the ellipsoid generator's normalization substitutes 1 for
a zero-length normal, so its divisor is never zero; the random generator's
normalization has no such guard: its divisor is zero exactly when the raw
axis sample is the zero vector, in which case the float code divides by zero
and produces non-numbers. -/
theorem C9_normalization_divisors :
    (∀ (shape : ℕ × ℕ × ℕ) (center radius : ℝ × ℝ × ℝ) (k j i : ℕ),
      ellipsoid_axis_divisor shape center radius k j i ≠ 0) ∧
    (∀ (a0 a1 a2 : ℕ → ℕ → ℕ → ℝ) (k j i : ℕ),
      random_axis_divisor a0 a1 a2 k j i = 0 ↔
        a0 k j i = 0 ∧ a1 k j i = 0 ∧ a2 k j i = 0) := by
  constructor
  · intro shape center radius k j i
    unfold ellipsoid_axis_divisor replaceZeroNorm
    split_ifs with hsq
    · norm_num
    · exact hsq
  · intro a0 a1 a2 k j i
    unfold random_axis_divisor
    constructor
    · intro h
      have hs0 : (0 : ℝ) ≤ a0 k j i ^ 2 + a1 k j i ^ 2 + a2 k j i ^ 2 := by
        positivity
      have hle := Real.sqrt_eq_zero'.mp h
      have hsum : a0 k j i ^ 2 + a1 k j i ^ 2 + a2 k j i ^ 2 = 0 :=
        le_antisymm hle hs0
      have e0 : a0 k j i ^ 2 = 0 := le_antisymm
        (by nlinarith [sq_nonneg (a1 k j i), sq_nonneg (a2 k j i)])
        (sq_nonneg _)
      have e1 : a1 k j i ^ 2 = 0 := le_antisymm
        (by nlinarith [sq_nonneg (a0 k j i), sq_nonneg (a2 k j i)])
        (sq_nonneg _)
      have e2 : a2 k j i ^ 2 = 0 := le_antisymm
        (by nlinarith [sq_nonneg (a0 k j i), sq_nonneg (a1 k j i)])
        (sq_nonneg _)
      exact ⟨sq_eq_zero_iff.mp e0, sq_eq_zero_iff.mp e1,
        sq_eq_zero_iff.mp e2⟩
    · rintro ⟨h0, h1, h2⟩
      rw [h0, h1, h2]
      norm_num

/-- Counterexample for C9 as stated: at a zero-vector axis sample (an
admissible draw of uniform(-5, 5)), the random generator's normalization
divisor is 0 and no neutral default is substituted, so the division is by a
zero-length vector (NaN in the floating-point code). -/
theorem C9_counterexample :
    random_axis_divisor zeroSample zeroSample zeroSample 0 0 0 = 0 ∧
    (-5 : ℝ) ≤ zeroSample 0 0 0 ∧ zeroSample 0 0 0 ≤ 5 := by
  refine ⟨?_, by norm_num [zeroSample], by norm_num [zeroSample]⟩
  unfold random_axis_divisor zeroSample
  norm_num

end ForwardModel

